import Mathlib

/-
Verification development for the accessibility-statement section extractor
(`extract_sections` and its helper parsers in `scraper.py`).

The HTML document is embedded as a flat list of nodes in document order.
Each node carries its tag name and its text content, where `text` models the
result of BeautifulSoup's `get_text(strip=True)` on that node.  The result
dictionary is embedded as an association list with Python-dict semantics
(assignment overwrites in place, otherwise appends), whose values are
`Option String` so that Python's `None` is `none`.
-/

set_option autoImplicit false

namespace Scraper

/-- A structural node of the parsed document: its tag name (e.g. "h2", "p")
and its text content (the result of `get_text(strip=True)`). -/
structure Node where
  tag : String
  text : String
deriving DecidableEq

/-- Models `soup.find_all(["h1", "h2", "h3", "h4", "h5"])` membership: the
node is one of the five collected heading tags. -/
def isHeading (n : Node) : Bool :=
  n.tag == "h1" || n.tag == "h2" || n.tag == "h3" || n.tag == "h4" || n.tag == "h5"

/-- Models Python's `sibling.name and sibling.name.startswith("h")`: true when
the tag name is non-empty and its first character is the letter h. -/
def startsWithH (s : String) : Bool :=
  match s.toList with
  | [] => false
  | c :: _ => c == 'h'

/-- Models Python's `str.lower()` (ASCII case folding suffices here). -/
def strLower (s : String) : String :=
  String.mk (s.toList.map Char.toLower)

/-- Models Python's `str.strip()` on a character list. -/
def pyStripL (l : List Char) : List Char :=
  ((l.dropWhile Char.isWhitespace).reverse.dropWhile Char.isWhitespace).reverse

/-- Models Python's `str.strip()`. -/
def pyStrip (s : String) : String :=
  String.mk (pyStripL s.toList)

/-- Character-list test used to implement Python's `in` on strings:
`chPre p l` is true when `p` is an initial segment of `l`. -/
def chPre : List Char → List Char → Bool
  | [], _ => true
  | _ :: _, [] => false
  | p :: ps, c :: cs => p == c && chPre ps cs

/-- Models Python's `pat in hay` on character lists: `pat` occurs
contiguously somewhere in `hay`. -/
def pyInL (pat l : List Char) : Bool :=
  l.tails.any (fun t => chPre pat t)

/-- Models Python's substring operator `pat in hay` on strings. -/
def pyIn (pat hay : String) : Bool :=
  pyInL pat.toList hay.toList

/-- The Python result dictionary: an association list from keys to values,
where a stored value `none` models Python's `None`. -/
abbrev Dict := List (String × Option String)

/-- Key lookup in the dictionary: `some v` when the key is present with
stored value `v`, and `none` when the key is absent. -/
def dictFind : Dict → String → Option (Option String)
  | [], _ => none
  | (k', v) :: tl, k => if k' == k then some v else dictFind tl k

/-- Models Python dict assignment `d[k] = v`: overwrite in place when the key
is present, append otherwise. -/
def dictSet : Dict → String → Option String → Dict
  | [], k, v => [(k, v)]
  | (k', v') :: tl, k, v => if k' == k then (k', v) :: tl else (k', v') :: dictSet tl k v

/-- Models Python's `d.get(k)`: the stored value, or `None` when absent. -/
def pyGet (d : Dict) (k : String) : Option String :=
  match dictFind d k with
  | some v => v
  | none => none

/-- Models Python's `d.get(k, "")` at the places where the stored value is
known to be a string (the five section keys only ever hold strings). -/
def pyGetStr (d : Dict) (k : String) : String :=
  match dictFind d k with
  | some (some s) => s
  | _ => ""

/-- Models Python truthiness of a string-or-None value: `None` and the empty
string are falsy, every other string is truthy. -/
def pyTruthy : Option String → Bool
  | none => false
  | some s => !(s == "")

/-- Models `match_heading` in `extract_sections`:
`any(t in text.lower() for t in target_list)`. -/
def match_heading (text : String) (target_list : List String) : Bool :=
  target_list.any (fun t => pyIn t (strLower text))

/-- The `heading_map` dict literal of `extract_sections`, in its Python
insertion (and hence iteration) order. -/
def heading_map : List (String × List String) :=
  [ ("feedback", ["feedback", "contact", "reporting"]),
    ("enforcement", ["enforcement"]),
    ("compliance_status", ["compliance status"]),
    ("preparation", ["preparation"]),
    ("non_accessible",
      ["non-accessible", "not accessible", "does not fully meet",
       "non compliance", "non-compliance", "content not accessible",
       "not compliant", "partially compliant"]) ]

/-- The key-selection part of the inner loop of `extract_sections`: the first
table entry whose keyword list matches the heading text wins. -/
def headingFind : List (String × List String) → String → Option String
  | [], _ => none
  | (key, keywords) :: tl, text =>
    if match_heading text keywords then some key else headingFind tl text

/-- The heading classifier: the first key of `heading_map`, in iteration
order, whose keyword list matches the heading text. -/
def classifyHeading (text : String) : Option String :=
  headingFind heading_map text

/-- Models `"\n".join(content)` over the collected node texts. -/
def joinTexts (ns : List Node) : String :=
  String.intercalate "\n" (ns.map Node.text)

/-- The inner loop of `extract_sections` over the `heading_map` entries, for
one heading with (already lowercased) text `text` whose following nodes in
document order are `rest`.  The `non_accessible` branch collects the text of
all following nodes; every other branch stops at the first following node
whose tag name starts with "h". -/
def sectionLoop : List (String × List String) → Dict → String → List Node → Dict
  | [], results, _, _ => results
  | (key, keywords) :: tl, results, text, rest =>
    if key == "non_accessible" && match_heading text keywords then
      dictSet results key (some (joinTexts rest))
    else if match_heading text keywords then
      dictSet results key
        (some (joinTexts (rest.takeWhile (fun sibling => !(startsWithH sibling.tag)))))
    else sectionLoop tl results text rest

/-- The content that the inner loop stores for a heading classified to `key`
whose following nodes are `rest`. -/
def contentFor (key : String) (rest : List Node) : String :=
  if key == "non_accessible" then joinTexts rest
  else joinTexts (rest.takeWhile (fun sibling => !(startsWithH sibling.tag)))

/-- The outer loop of `extract_sections` over the document: every heading
node is processed with the nodes following it (`find_all_next()`), in
document order. -/
def extractLoop : List Node → Dict → Dict
  | [], results => results
  | n :: tl, results =>
    if isHeading n then
      extractLoop tl (sectionLoop heading_map results (strLower n.text) tl)
    else extractLoop tl results

/-- The five section keys of `heading_map`, in order. -/
def sectionKeys : List String :=
  ["feedback", "enforcement", "compliance_status", "preparation", "non_accessible"]

/-- A calendar date as produced by the date parser. -/
structure Date where
  year : Nat
  month : Nat
  day : Nat
deriving DecidableEq

/-- Two-digit zero padding for months and days. -/
def pad2 (n : Nat) : String :=
  if n < 10 then "0" ++ toString n else toString n

/-- Models Python's `parsed.date().isoformat()`: the ISO 8601 YYYY-MM-DD
rendering of a date. -/
def Date.isoformat (d : Date) : String :=
  toString d.year ++ "-" ++ pad2 d.month ++ "-" ++ pad2 d.day

/-- Splits a character list into its maximal runs of letters and maximal runs
of digits; all other characters separate runs. -/
def splitRuns (l : List Char) : List String :=
  let step : Char → List (List Char) → List (List Char) := fun c acc =>
    if c.isAlpha then
      match acc with
      | t :: ts =>
        if (t.head?.map Char.isAlpha).getD false then (c :: t) :: ts else [c] :: t :: ts
      | [] => [[c]]
    else if c.isDigit then
      match acc with
      | t :: ts =>
        if (t.head?.map Char.isDigit).getD false then (c :: t) :: ts else [c] :: t :: ts
      | [] => [[c]]
    else [] :: acc
  ((l.foldr step []).filter (fun t => !t.isEmpty)).map String.mk

/-- English month names and their usual abbreviations. -/
def monthTable : List (String × Nat) :=
  [ ("january", 1), ("february", 2), ("march", 3), ("april", 4), ("may", 5),
    ("june", 6), ("july", 7), ("august", 8), ("september", 9), ("october", 10),
    ("november", 11), ("december", 12),
    ("jan", 1), ("feb", 2), ("mar", 3), ("apr", 4), ("jun", 6), ("jul", 7),
    ("aug", 8), ("sep", 9), ("sept", 9), ("oct", 10), ("nov", 11), ("dec", 12) ]

/-- The natural number denoted by a digit-only token. -/
def natOfDigits (s : String) : Nat :=
  s.toList.foldl (fun a c => a * 10 + (c.toNat - 48)) 0

/-- Modelled from the spec: the third-party fuzzy date parser
(`dateutil.parser.parse` with `fuzzy=True`), which is not part of this
repository's sources — "fuzzy-parse it as a date (tolerant of surrounding
prose, not requiring a strict format)".  The candidate is split into
letter/digit tokens; a date is recognized when the tokens contain an English
month name, a day number (1..31) and a four-digit year; otherwise parsing
fails and the result is absent. -/
def fuzzyParseDate (s : String) : Option Date :=
  let ts := splitRuns s.toList
  let month := ts.findSome? (fun t => (monthTable.find? (fun p => p.1 == strLower t)).map (·.2))
  let nums := ts.filterMap (fun t => if t.toList.all Char.isDigit then some (natOfDigits t) else none)
  let day := nums.find? (fun n => decide (1 ≤ n ∧ n ≤ 31))
  let year := nums.find? (fun n => decide (1000 ≤ n ∧ n ≤ 9999))
  match year, month, day with
  | some y, some m, some d => some ⟨y, m, d⟩
  | _, _, _ => none

/-- Case-insensitive literal match: consumes the (already lowercase) pattern
from the front of `s`, returning the remainder on success. -/
def ciStrip : List Char → List Char → Option (List Char)
  | [], s => some s
  | _ :: _, [] => none
  | p :: ps, c :: cs => if c.toLower == p then ciStrip ps cs else none

/-- Greedy match of the regex fragment `(?: on)?`. -/
def tryOn (s : List Char) : List Char :=
  (ciStrip " on".toList s).getD s

/-- Match, at the current position, one of the phrase alternatives of the
date-parser regex `(last reviewed(?: on)?|reviewed(?: on)?|last updated|updated(?: on)?)`,
tried in the regex's left-to-right order, returning the remainder after the
matched phrase. -/
def phraseAt (s : List Char) : Option (List Char) :=
  match ciStrip "last reviewed".toList s with
  | some r => some (tryOn r)
  | none =>
  match ciStrip "reviewed".toList s with
  | some r => some (tryOn r)
  | none =>
  match ciStrip "last updated".toList s with
  | some r => some r
  | none => (ciStrip "updated".toList s).map tryOn

/-- The regex fragment `\s*`. -/
def skipWs (s : List Char) : List Char :=
  s.dropWhile Char.isWhitespace

/-- The regex fragment `\s*[:\-]?\s*` that follows the matched phrase. -/
def afterSep (s : List Char) : List Char :=
  let s1 := skipWs s
  let s2 := match s1 with
    | c :: cs => if c == ':' || c == '-' then cs else c :: cs
    | [] => []
  skipWs s2

/-- Models `re.search` for the date-parser pattern: scan left to right for
the first position where some phrase alternative matches, and return the
remainder after the phrase and the separator (the start of group 2). -/
def searchPhrase : List Char → Option (List Char)
  | [] => none
  | c :: cs =>
    match phraseAt (c :: cs) with
    | some r => some (afterSep r)
    | none => searchPhrase cs

/-- Models `extract_last_review_date`: search for a review/update phrase,
take the rest of that line (group 2 of the regex stops at a newline), strip
it, truncate to 200 characters, fuzzy-parse it as a date, and render the
date in ISO 8601 form; absent when the phrase is missing or the candidate
does not parse. -/
def extract_last_review_date (text : String) : Option String :=
  match searchPhrase text.toList with
  | none => none
  | some rest =>
    let candidate := String.mk ((pyStripL (rest.takeWhile (fun c => !(c == '\n')))).take 200)
    (fuzzyParseDate candidate).map Date.isoformat

/-- Models `extract_wcag_version`: the first of the literal substrings
"2.2", "2.1", "2.0" that occurs in the text. -/
def extract_wcag_version (text : String) : Option String :=
  ["2.2", "2.1", "2.0"].find? (fun version => pyIn version text)

/-- Models `extract_compliance_level`, with the source's redundant disjuncts
kept as written. -/
def extract_compliance_level (text : String) : Option String :=
  let text_l := strLower text
  if pyIn "fully" text_l && pyIn "compliant" text_l then some "Fully Compliant"
  else if pyIn "partially" text_l || pyIn "partial" text_l then some "Partially Compliant"
  else if pyIn "not compliant" text_l || pyIn "not compliant" text_l then some "Not Compliant"
  else none

/-- Models `extract_sections`: run the heading loop, then derive the
presence flags and the parsed fields, assigning the dictionary keys in the
source's order. -/
def extract_sections (doc : List Node) : Dict :=
  let r0 := extractLoop doc []
  let r1 := dictSet r0 "feedback_present"
    (some (if pyTruthy (pyGet r0 "feedback") then "yes" else "no"))
  let r2 := dictSet r1 "enforcement_present"
    (some (if pyTruthy (pyGet r1 "enforcement") then "yes" else "no"))
  let prep := pyGetStr r2 "preparation"
  let r3 := dictSet r2 "last_review" (extract_last_review_date prep)
  let comp_stat := pyGetStr r3 "compliance_status"
  let r4 := dictSet r3 "wcag" (extract_wcag_version comp_stat)
  let r5 := dictSet r4 "compliance_level" (extract_compliance_level comp_stat)
  let issue := pyStrip (pyGetStr r5 "non_accessible")
  dictSet r5 "issue_text" (if issue == "" then none else some issue)

/-- Follows the spec's words (§4.2 step 2), for comparison with the code:
"For each heading, in order, skip it if its classified key is already
present in the result map (first-match-wins)". -/
def extractLoopFirstWins : List Node → Dict → Dict
  | [], results => results
  | n :: tl, results =>
    if isHeading n then
      extractLoopFirstWins tl
        (match classifyHeading (strLower n.text) with
         | none => results
         | some key =>
           if (dictFind results key).isSome then results
           else dictSet results key (some (contentFor key tl)))
    else extractLoopFirstWins tl results

/-- Follows the spec's words (claim C5): the first section key, tested in
the order feedback, enforcement, compliance_status, preparation,
non_accessible, some of whose keywords is a case-insensitive substring of
the heading text. -/
def specClassify (text : String) : Option String :=
  if ["feedback", "contact", "reporting"].any (fun kw => pyIn kw (strLower text)) then
    some "feedback"
  else if ["enforcement"].any (fun kw => pyIn kw (strLower text)) then
    some "enforcement"
  else if ["compliance status"].any (fun kw => pyIn kw (strLower text)) then
    some "compliance_status"
  else if ["preparation"].any (fun kw => pyIn kw (strLower text)) then
    some "preparation"
  else if ["non-accessible", "not accessible", "does not fully meet",
           "non compliance", "non-compliance", "content not accessible",
           "not compliant", "partially compliant"].any (fun kw => pyIn kw (strLower text)) then
    some "non_accessible"
  else none

/-- Follows the spec's words (claim C6): contains "fully" and "compliant" →
Fully Compliant; else contains "partial" → Partially Compliant; else
contains "not compliant" → Not Compliant; else absent. -/
def specLevel (text : String) : Option String :=
  let text_l := strLower text
  if pyIn "fully" text_l && pyIn "compliant" text_l then some "Fully Compliant"
  else if pyIn "partial" text_l then some "Partially Compliant"
  else if pyIn "not compliant" text_l then some "Not Compliant"
  else none

/-! Helper lemmas about the dictionary model. -/

theorem dictFind_dictSet_self (d : Dict) (k : String) (v : Option String) :
    dictFind (dictSet d k v) k = some v := by
  induction d with
  | nil => simp [dictSet, dictFind]
  | cons hd tl ih =>
    obtain ⟨k', v'⟩ := hd
    by_cases h : k' = k
    · subst h
      simp [dictSet, dictFind]
    · have hb : (k' == k) = false := beq_false_of_ne h
      simp [dictSet, dictFind, hb, ih]

theorem dictFind_dictSet_ne (d : Dict) (k k' : String) (v : Option String)
    (h : k ≠ k') : dictFind (dictSet d k v) k' = dictFind d k' := by
  induction d with
  | nil => simp [dictSet, dictFind, beq_false_of_ne h]
  | cons hd tl ih =>
    obtain ⟨k0, v0⟩ := hd
    by_cases h0 : k0 = k
    · subst h0
      simp [dictSet, dictFind, beq_false_of_ne h]
    · simp [dictSet, dictFind, beq_false_of_ne h0, ih]

/-! Helper lemmas connecting the extraction loops to the classifier. -/

theorem sectionLoop_eq (hm : List (String × List String)) (r : Dict)
    (text : String) (rest : List Node) :
    sectionLoop hm r text rest =
      match headingFind hm text with
      | none => r
      | some key => dictSet r key (some (contentFor key rest)) := by
  induction hm with
  | nil => simp [sectionLoop, headingFind]
  | cons hd tl ih =>
    obtain ⟨key, keywords⟩ := hd
    by_cases hmh : match_heading text keywords
    · by_cases hna : key = "non_accessible"
      · subst hna
        simp [sectionLoop, headingFind, hmh, contentFor]
      · have hb : (key == "non_accessible") = false := beq_false_of_ne hna
        simp [sectionLoop, headingFind, hmh, hb, contentFor]
    · have hb : match_heading text keywords = false := by
        simpa using hmh
      simp [sectionLoop, headingFind, hb, ih]

/-- The rest of the document after the last heading that classifies to `k`,
when such a heading exists. -/
def lastMatchRest : List Node → String → Option (List Node)
  | [], _ => none
  | n :: tl, k =>
    match lastMatchRest tl k with
    | some r => some r
    | none =>
      if isHeading n && (classifyHeading (strLower n.text) == some k) then some tl
      else none

theorem dictFind_extractLoop (doc : List Node) (r : Dict) (k : String) :
    dictFind (extractLoop doc r) k =
      match lastMatchRest doc k with
      | some rest => some (some (contentFor k rest))
      | none => dictFind r k := by
  induction doc generalizing r with
  | nil => simp [extractLoop, lastMatchRest]
  | cons n tl ih =>
    by_cases hh : isHeading n
    · have hstep : extractLoop (n :: tl) r =
          extractLoop tl (sectionLoop heading_map r (strLower n.text) tl) := by
        simp [extractLoop, hh]
      rw [hstep, ih]
      cases hlast : lastMatchRest tl k with
      | some rest =>
        simp [lastMatchRest, hlast]
      | none =>
        rw [sectionLoop_eq]
        cases hc : headingFind heading_map (strLower n.text) with
        | none =>
          simp [lastMatchRest, hlast, hh, classifyHeading, hc]
        | some key =>
          by_cases hk : key = k
          · subst hk
            simp [lastMatchRest, hlast, hh, classifyHeading, hc,
              dictFind_dictSet_self]
          · simp [lastMatchRest, hlast, hh, classifyHeading, hc,
              dictFind_dictSet_ne _ _ _ _ hk, beq_false_of_ne hk]
    · have hstep : extractLoop (n :: tl) r = extractLoop tl r := by
        simp [extractLoop, hh]
      rw [hstep, ih]
      cases hlast : lastMatchRest tl k with
      | some rest => simp [lastMatchRest, hlast]
      | none => simp [lastMatchRest, hlast, hh]

theorem lastMatchRest_mem {doc : List Node} {k : String} {rest : List Node}
    (h : lastMatchRest doc k = some rest) :
    ∃ n ∈ doc, isHeading n = true ∧ classifyHeading (strLower n.text) = some k := by
  induction doc generalizing rest with
  | nil => simp [lastMatchRest] at h
  | cons n tl ih =>
    rw [lastMatchRest] at h
    cases hlast : lastMatchRest tl k with
    | some r =>
      obtain ⟨m, hm, hmh, hmc⟩ := ih hlast
      exact ⟨m, List.mem_cons_of_mem _ hm, hmh, hmc⟩
    | none =>
      rw [hlast] at h
      by_cases hcond : (isHeading n && (classifyHeading (strLower n.text) == some k)) = true
      · obtain ⟨h1, h2⟩ := Bool.and_eq_true_iff.mp hcond
        exact ⟨n, List.mem_cons_self n tl, h1, beq_iff_eq.mp h2⟩
      · simp [hcond] at h

theorem extractLoop_no_headings {doc : List Node} (r : Dict)
    (h : ∀ n ∈ doc, isHeading n = false) : extractLoop doc r = r := by
  induction doc with
  | nil => rfl
  | cons n tl ih =>
    have hn : isHeading n = false := h n (List.mem_cons_self n tl)
    rw [extractLoop, hn]
    simp only [Bool.false_eq_true, if_false]
    exact ih (fun m hm => h m (List.mem_cons_of_mem _ hm))

theorem dictFind_extract_sections_section (doc : List Node) (k : String)
    (hk : k ∈ sectionKeys) :
    dictFind (extract_sections doc) k = dictFind (extractLoop doc []) k := by
  fin_cases hk <;>
    simp only [extract_sections] <;>
    rw [dictFind_dictSet_ne _ _ _ _ (by decide), dictFind_dictSet_ne _ _ _ _ (by decide),
      dictFind_dictSet_ne _ _ _ _ (by decide), dictFind_dictSet_ne _ _ _ _ (by decide),
      dictFind_dictSet_ne _ _ _ _ (by decide), dictFind_dictSet_ne _ _ _ _ (by decide)]

theorem extract_sections_of_no_headings {doc : List Node}
    (h : ∀ n ∈ doc, isHeading n = false) :
    extract_sections doc =
      [("feedback_present", some "no"), ("enforcement_present", some "no"),
       ("last_review", none), ("wcag", none), ("compliance_level", none),
       ("issue_text", none)] := by
  have h0 : extractLoop doc [] = [] := extractLoop_no_headings [] h
  simp only [extract_sections, h0]
  rfl

/-! Helper lemmas about the substring predicate. -/

theorem chPre_append (p r : List Char) : chPre p (p ++ r) = true := by
  induction p with
  | nil => rfl
  | cons c cs ih => simp [chPre, ih]

theorem chPre_of_append {p q l : List Char} (h : chPre (p ++ q) l = true) :
    chPre p l = true := by
  induction p generalizing l with
  | nil => rfl
  | cons c cs ih =>
    cases l with
    | nil => simp [chPre] at h
    | cons d ds =>
      rw [List.cons_append, chPre, Bool.and_eq_true_iff] at h
      rw [chPre, Bool.and_eq_true_iff]
      exact ⟨h.1, ih h.2⟩

theorem pyInL_of_append {pat l : List Char} (pre rest : List Char)
    (h : l = pre ++ (pat ++ rest)) : pyInL pat l = true := by
  rw [pyInL, List.any_eq_true]
  refine ⟨pat ++ rest, ?_, chPre_append pat rest⟩
  rw [List.mem_tails, h]
  exact List.suffix_append pre (pat ++ rest)

theorem pyInL_mono_append {p q l : List Char} (h : pyInL (p ++ q) l = true) :
    pyInL p l = true := by
  rw [pyInL, List.any_eq_true] at h ⊢
  obtain ⟨t, ht, hc⟩ := h
  exact ⟨t, ht, chPre_of_append hc⟩

theorem pyInL_cons_false {p : List Char} {c : Char} {l : List Char}
    (h : pyInL p (c :: l) = false) : pyInL p l = false := by
  rw [pyInL, List.tails_cons, List.any_cons, Bool.or_eq_false_iff] at h
  exact h.2

/-! Helper lemmas about the date-parser regex search. -/

theorem ciStrip_eq {p s r : List Char} (h : ciStrip p s = some r) :
    s.map Char.toLower = p ++ r.map Char.toLower := by
  induction p generalizing s with
  | nil =>
    rw [ciStrip] at h
    cases h
    rfl
  | cons c cs ih =>
    cases s with
    | nil => simp [ciStrip] at h
    | cons d ds =>
      rw [ciStrip] at h
      by_cases hd : d.toLower = c
      · rw [if_pos (by simpa using hd)] at h
        simp [hd, ih h]
      · rw [if_neg (by simpa using hd)] at h
        cases h

theorem phraseAt_none {s : List Char}
    (h1 : pyInL "reviewed".toList (s.map Char.toLower) = false)
    (h2 : pyInL "updated".toList (s.map Char.toLower) = false) :
    phraseAt s = none := by
  cases hc1 : ciStrip "last reviewed".toList s with
  | some r =>
    exfalso
    have he := ciStrip_eq hc1
    have : pyInL "reviewed".toList (s.map Char.toLower) = true := by
      refine pyInL_of_append "last ".toList (r.map Char.toLower) ?_
      rw [he]
      rfl
    rw [this] at h1
    cases h1
  | none =>
  cases hc2 : ciStrip "reviewed".toList s with
  | some r =>
    exfalso
    have he := ciStrip_eq hc2
    have : pyInL "reviewed".toList (s.map Char.toLower) = true :=
      pyInL_of_append [] (r.map Char.toLower) (by rw [he]; rfl)
    rw [this] at h1
    cases h1
  | none =>
  cases hc3 : ciStrip "last updated".toList s with
  | some r =>
    exfalso
    have he := ciStrip_eq hc3
    have : pyInL "updated".toList (s.map Char.toLower) = true := by
      refine pyInL_of_append "last ".toList (r.map Char.toLower) ?_
      rw [he]
      rfl
    rw [this] at h2
    cases h2
  | none =>
  cases hc4 : ciStrip "updated".toList s with
  | some r =>
    exfalso
    have he := ciStrip_eq hc4
    have : pyInL "updated".toList (s.map Char.toLower) = true :=
      pyInL_of_append [] (r.map Char.toLower) (by rw [he]; rfl)
    rw [this] at h2
    cases h2
  | none =>
    simp only [phraseAt, hc1, hc2, hc3, hc4]
    rfl

theorem searchPhrase_none {l : List Char}
    (h1 : pyInL "reviewed".toList (l.map Char.toLower) = false)
    (h2 : pyInL "updated".toList (l.map Char.toLower) = false) :
    searchPhrase l = none := by
  induction l with
  | nil => rfl
  | cons c cs ih =>
    rw [searchPhrase, phraseAt_none h1 h2]
    rw [List.map_cons] at h1 h2
    exact ih (pyInL_cons_false h1) (pyInL_cons_false h2)

/-! Helper lemmas locating the derived presence flags in the final record. -/

theorem pyGet_dictSet_ne (d : Dict) (k k' : String) (v : Option String)
    (h : k ≠ k') : pyGet (dictSet d k v) k' = pyGet d k' := by
  rw [pyGet, dictFind_dictSet_ne _ _ _ _ h, pyGet]

theorem dictFind_feedback_present (doc : List Node) :
    dictFind (extract_sections doc) "feedback_present" =
      some (some (if pyTruthy (pyGet (extractLoop doc []) "feedback") then "yes" else "no")) := by
  simp only [extract_sections]
  rw [dictFind_dictSet_ne _ _ _ _ (by decide), dictFind_dictSet_ne _ _ _ _ (by decide),
    dictFind_dictSet_ne _ _ _ _ (by decide), dictFind_dictSet_ne _ _ _ _ (by decide),
    dictFind_dictSet_ne _ _ _ _ (by decide), dictFind_dictSet_self]

theorem dictFind_enforcement_present (doc : List Node) :
    dictFind (extract_sections doc) "enforcement_present" =
      some (some (if pyTruthy (pyGet (extractLoop doc []) "enforcement") then "yes" else "no")) := by
  simp only [extract_sections]
  rw [dictFind_dictSet_ne _ _ _ _ (by decide), dictFind_dictSet_ne _ _ _ _ (by decide),
    dictFind_dictSet_ne _ _ _ _ (by decide), dictFind_dictSet_ne _ _ _ _ (by decide),
    dictFind_dictSet_self, pyGet_dictSet_ne _ _ _ _ (by decide)]

/-- The possible shapes of a section entry after the heading loop started
from the empty dictionary: absent, or present holding a string. -/
theorem dictFind_extractLoop_nil_cases (doc : List Node) (k : String) :
    dictFind (extractLoop doc []) k = none ∨
      ∃ s, dictFind (extractLoop doc []) k = some (some s) := by
  rw [dictFind_extractLoop]
  cases lastMatchRest doc k with
  | none => exact Or.inl rfl
  | some rest => exact Or.inr ⟨contentFor k rest, rfl⟩

/-! The documents used as concrete inputs in the claim theorems. -/

/-- Two headings that both classify to `feedback` ("feedback" and "contact us"). -/
def c1doc : List Node :=
  [⟨"h2", "feedback"⟩, ⟨"p", "first"⟩, ⟨"h2", "contact us"⟩, ⟨"p", "second"⟩]

/-- A `feedback` heading whose following nodes contain an `hr` tag before the
next heading. -/
def c2doc : List Node :=
  [⟨"h2", "feedback"⟩, ⟨"p", "A"⟩, ⟨"hr", ""⟩, ⟨"p", "B"⟩, ⟨"h1", "done"⟩]

/-- A `non_accessible` heading followed by another heading and more content. -/
def c3doc : List Node :=
  [⟨"h2", "Non-accessible content"⟩, ⟨"p", "x"⟩, ⟨"h2", "Enforcement procedure"⟩, ⟨"p", "z"⟩]

/-- A `feedback` heading followed by two empty-text nodes, so the stored
section string is the whitespace-only "\n". -/
def c4doc : List Node :=
  [⟨"h2", "feedback"⟩, ⟨"p", ""⟩, ⟨"p", ""⟩, ⟨"h2", "end"⟩]

/-! Claim C1. -/

/-- Claim C1 counterexample: in `c1doc` the headings "feedback" and
"contact us" both classify to `feedback`; the code stores the SECOND
heading's content "second" (dict assignment overwrites), while the
first-match-wins rule stated by the claim would store "first". -/
theorem c1_counterexample :
    dictFind (extract_sections c1doc) "feedback" = some (some "second") ∧
    dictFind (extractLoopFirstWins c1doc []) "feedback" = some (some "first") :=
  ⟨rfl, rfl⟩

/-- Claim C1 (amended): when several headings classify to the same section
key, each assignment overwrites the previous one, so the stored value is the
content of the LAST such heading (the nodes after it, collected by that
key's rule); the key is absent when no heading classifies to it. -/
theorem c1_last_heading_wins (doc : List Node) (k : String) (hk : k ∈ sectionKeys) :
    dictFind (extract_sections doc) k =
      match lastMatchRest doc k with
      | some rest => some (some (contentFor k rest))
      | none => none := by
  rw [dictFind_extract_sections_section doc k hk, dictFind_extractLoop]
  cases lastMatchRest doc k <;> rfl

/-- Witness for the amended claim C1 at the concrete document `c1doc`. -/
theorem c1_witness :
    ("feedback" ∈ sectionKeys) ∧
    dictFind (extract_sections c1doc) "feedback" = some (some "second") :=
  ⟨by decide, by rw [c1_last_heading_wins c1doc "feedback" (by decide)]; rfl⟩

/-! Claim C2. -/

/-- Claim C2 counterexample: in `c2doc` the `feedback` heading is followed by
`p "A"`, `hr`, `p "B"`, `h1 "done"`.  The first following heading is the
`h1`, so under the claim the section content would be "A\n\nB" (the texts of
the three nodes before it), but the code stops already at the `hr` tag
(whose name starts with "h") and stores just "A". -/
theorem c2_counterexample :
    dictFind (extract_sections c2doc) "feedback" = some (some "A") ∧
    joinTexts ((c2doc.drop 1).takeWhile (fun n => !(isHeading n))) = "A\n\nB" ∧
    ("A" : String) ≠ "A\n\nB" :=
  ⟨rfl, rfl, by decide⟩

/-- Claim C2 (amended): for every classified heading whose key is not
`non_accessible`, the extracted section content is the trimmed text of the
nodes following the heading joined by newline, stopping at the first
following node whose TAG NAME STARTS WITH "h" — which includes every
heading, but also non-heading tags such as `hr` or `header`. -/
theorem c2_stops_at_h_tag (r : Dict) (text : String) (rest : List Node) (k : String)
    (hc : classifyHeading text = some k) (hk : k ≠ "non_accessible") :
    sectionLoop heading_map r text rest =
      dictSet r k
        (some (joinTexts (rest.takeWhile (fun sibling => !(startsWithH sibling.tag))))) := by
  rw [sectionLoop_eq]
  rw [classifyHeading] at hc
  rw [hc]
  simp [contentFor, beq_false_of_ne hk]

/-- Witness for the amended claim C2: a `feedback` heading whose content
stops at the `hr` tag. -/
theorem c2_witness :
    sectionLoop heading_map [] "feedback" [⟨"p", "A"⟩, ⟨"hr", ""⟩, ⟨"p", "B"⟩] =
      [("feedback", some "A")] := by
  rw [c2_stops_at_h_tag [] "feedback" [⟨"p", "A"⟩, ⟨"hr", ""⟩, ⟨"p", "B"⟩] "feedback"
    (by decide) (by decide)]
  rfl

/-! Claim C3. -/

/-- Claim C3: a heading classified as `non_accessible` accumulates the text
of ALL nodes following it, to the end of the document — it never stops at a
later heading, unlike the other four section keys.  In `c3doc` the stored
content "x\nEnforcement procedure\nz" includes the later `h2` heading's own
text and the node after it. -/
theorem c3_non_accessible_unbounded :
    (∀ (r : Dict) (text : String) (rest : List Node),
        classifyHeading text = some "non_accessible" →
        sectionLoop heading_map r text rest =
          dictSet r "non_accessible" (some (joinTexts rest))) ∧
    dictFind (extract_sections c3doc) "non_accessible" =
      some (some "x\nEnforcement procedure\nz") := by
  constructor
  · intro r text rest hc
    rw [sectionLoop_eq]
    rw [classifyHeading] at hc
    rw [hc]
    rfl
  · rfl

/-- Witness for claim C3: a concrete `non_accessible` heading whose stored
content runs past the following `h1` heading to the end of the document. -/
theorem c3_witness :
    sectionLoop heading_map [] "non-accessible stuff" [⟨"p", "x"⟩, ⟨"h1", "t"⟩] =
      [("non_accessible", some "x\nt")] := by
  rw [c3_non_accessible_unbounded.1 [] "non-accessible stuff" [⟨"p", "x"⟩, ⟨"h1", "t"⟩]
    (by decide)]
  rfl

/-! Claim C4. -/

/-- Claim C4 counterexample: in `c4doc` the stored `feedback` section string
is "\n", which strips to the empty string, yet `feedback_present` is "yes" —
the code tests Python truthiness of the joined string without stripping,
contradicting the claim that a whitespace-only section yields "no". -/
theorem c4_counterexample :
    dictFind (extract_sections c4doc) "feedback" = some (some "\n") ∧
    pyStrip "\n" = "" ∧
    dictFind (extract_sections c4doc) "feedback_present" = some (some "yes") :=
  ⟨rfl, rfl, rfl⟩

/-- Claim C4 (amended): `feedback_present` is "yes" if and only if the stored
`feedback` section string is non-empty, WITHOUT stripping whitespace (so a
whitespace-only stored string such as "\n" yields "yes"); otherwise it is
"no".  The same rule holds for `enforcement_present` and the `enforcement`
section. -/
theorem c4_presence_no_strip (doc : List Node) :
    (dictFind (extract_sections doc) "feedback_present" = some (some "yes") ∨
     dictFind (extract_sections doc) "feedback_present" = some (some "no")) ∧
    (dictFind (extract_sections doc) "feedback_present" = some (some "yes") ↔
      ∃ s, dictFind (extract_sections doc) "feedback" = some (some s) ∧ s ≠ "") ∧
    (dictFind (extract_sections doc) "enforcement_present" = some (some "yes") ↔
      ∃ s, dictFind (extract_sections doc) "enforcement" = some (some s) ∧ s ≠ "") := by
  rw [dictFind_feedback_present, dictFind_enforcement_present,
    dictFind_extract_sections_section doc "feedback" (by decide),
    dictFind_extract_sections_section doc "enforcement" (by decide)]
  refine ⟨?_, ?_, ?_⟩
  · cases pyTruthy (pyGet (extractLoop doc []) "feedback") <;> simp
  · rcases dictFind_extractLoop_nil_cases doc "feedback" with h | ⟨s, h⟩
    · simp [h, pyGet, pyTruthy]
    · by_cases hs : s = ""
      · subst hs
        simp [h, pyGet, pyTruthy]
      · simp [h, pyGet, pyTruthy, hs]
  · rcases dictFind_extractLoop_nil_cases doc "enforcement" with h | ⟨s, h⟩
    · simp [h, pyGet, pyTruthy]
    · by_cases hs : s = ""
      · subst hs
        simp [h, pyGet, pyTruthy]
      · simp [h, pyGet, pyTruthy, hs]

/-- Witness for the amended claim C4 at the concrete document `c4doc`, whose
whitespace-only `feedback` section "\n" makes the flag "yes". -/
theorem c4_witness :
    dictFind (extract_sections c4doc) "feedback_present" = some (some "yes") :=
  (c4_presence_no_strip c4doc).2.1.mpr ⟨"\n", rfl, by decide⟩

/-! Claim C5. -/

/-- Claim C5: the heading classifier returns the first section key, tested
in the order feedback, enforcement, compliance_status, preparation,
non_accessible, for which some keyword of that key is a case-insensitive
substring of the heading text, and no key when none matches; a heading
matching keywords of several keys (here `feedback` and `non_accessible`)
classifies to the earliest key in that order. -/
theorem c5_classifier_order :
    (∀ text : String, classifyHeading text = specClassify text) ∧
    classifyHeading (strLower "Feedback on non-accessible content") = some "feedback" := by
  constructor
  · intro text
    rfl
  · rfl

/-- Witness for claim C5 at a heading text that matches no keyword list. -/
theorem c5_witness :
    classifyHeading "cookies" = specClassify "cookies" ∧ classifyHeading "cookies" = none :=
  ⟨c5_classifier_order.1 "cookies", rfl⟩

/-! Claim C6. -/

theorem pyIn_partially_imp {t : String} (h : pyIn "partially" t = true) :
    pyIn "partial" t = true := by
  rw [pyIn] at h ⊢
  have hsplit : "partially".toList = "partial".toList ++ ['l', 'y'] := by decide
  rw [hsplit] at h
  exact pyInL_mono_append h

/-- Claim C6: the level parser returns "Fully Compliant" when the lowercased
text contains both "fully" and "compliant"; otherwise "Partially Compliant"
when it contains "partial"; otherwise "Not Compliant" when it contains
"not compliant"; otherwise absent — and a text containing both
"fully compliant" and "partially" returns "Fully Compliant". -/
theorem c6_level_precedence :
    (∀ text : String, extract_compliance_level text = specLevel text) ∧
    extract_compliance_level "fully compliant, though partially reviewed" =
      some "Fully Compliant" := by
  constructor
  · intro text
    rw [extract_compliance_level, specLevel]
    by_cases h1 : (pyIn "fully" (strLower text) && pyIn "compliant" (strLower text)) = true
    · rw [if_pos h1, if_pos h1]
    · rw [if_neg h1, if_neg h1]
      have hor : (pyIn "partially" (strLower text) || pyIn "partial" (strLower text)) =
          pyIn "partial" (strLower text) := by
        cases hp : pyIn "partial" (strLower text) with
        | true => simp
        | false =>
          have hq : pyIn "partially" (strLower text) = false := by
            cases hq : pyIn "partially" (strLower text) with
            | false => rfl
            | true =>
              rw [pyIn_partially_imp hq] at hp
              cases hp
          simp [hq]
      rw [hor, Bool.or_self]
  · rfl

/-- Witness for claim C6 at a text that reaches the "partial" branch. -/
theorem c6_witness :
    extract_compliance_level "a partial review" = specLevel "a partial review" ∧
    extract_compliance_level "a partial review" = some "Partially Compliant" :=
  ⟨c6_level_precedence.1 "a partial review", rfl⟩

/-! Claim C7. -/

/-- Claim C7: the version parser checks the literal substrings "2.2", "2.1",
"2.0" in that fixed order and returns the first that occurs in the text,
absent when none occurs; when several occur, "2.2" wins over "2.1" which
wins over "2.0". -/
theorem c7_wcag_order :
    (∀ text : String,
        extract_wcag_version text =
          if pyIn "2.2" text then some "2.2"
          else if pyIn "2.1" text then some "2.1"
          else if pyIn "2.0" text then some "2.0"
          else none) ∧
    extract_wcag_version "WCAG 2.0 and 2.2" = some "2.2" := by
  constructor
  · intro text
    rw [extract_wcag_version]
    cases h1 : pyIn "2.2" text <;> cases h2 : pyIn "2.1" text <;>
      cases h3 : pyIn "2.0" text <;> simp [List.find?, h1, h2, h3]
  · rfl

/-- Witness for claim C7 at a text containing both "2.1" and "2.0". -/
theorem c7_witness :
    extract_wcag_version "WCAG 2.0 then WCAG 2.1" =
      (if pyIn "2.2" "WCAG 2.0 then WCAG 2.1" then some "2.2"
       else if pyIn "2.1" "WCAG 2.0 then WCAG 2.1" then some "2.1"
       else if pyIn "2.0" "WCAG 2.0 then WCAG 2.1" then some "2.0"
       else none) ∧
    extract_wcag_version "WCAG 2.0 then WCAG 2.1" = some "2.1" :=
  ⟨c7_wcag_order.1 "WCAG 2.0 then WCAG 2.1", rfl⟩

/-! Claim C8. -/

set_option maxRecDepth 8192

/-- Claim C8: the date parser finds the first occurrence of one of the
phrases "last reviewed [on]", "reviewed [on]", "last updated", "updated [on]"
(optionally followed by a colon or dash), takes the rest of that line,
truncates it to 200 characters, fuzzy-parses it as a date and renders it as
ISO 8601 YYYY-MM-DD; it returns absent (without raising) when no phrase
occurs (in particular when neither "reviewed" nor "updated" occurs in the
lowercased text) or when the candidate does not parse as a date.  The spec's
example input yields "2023-03-14"; text after the first newline and text
past the 200-character cutoff is ignored. -/
theorem c8_date_extraction :
    extract_last_review_date
        "Preparation: This statement was last reviewed on 14 March 2023 and approved." =
      some "2023-03-14" ∧
    extract_last_review_date "last updated: March 14 2023\nJune 2 1999" = some "2023-03-14" ∧
    extract_last_review_date "Reviewed on in the spring" = none ∧
    extract_last_review_date
        ("updated: " ++ String.mk (List.replicate 200 'x') ++ " 14 March 2023") = none ∧
    (∀ text : String,
        pyIn "reviewed" (strLower text) = false →
        pyIn "updated" (strLower text) = false →
        extract_last_review_date text = none) := by
  refine ⟨rfl, rfl, rfl, by decide, ?_⟩
  intro text h1 h2
  have hs : searchPhrase text.toList = none := searchPhrase_none h1 h2
  simp only [extract_last_review_date, hs]

/-- Witness for claim C8 at a text containing no review/update phrase. -/
theorem c8_witness :
    pyIn "reviewed" (strLower "no dates here") = false ∧
    pyIn "updated" (strLower "no dates here") = false ∧
    extract_last_review_date "no dates here" = none :=
  ⟨by decide, by decide, c8_date_extraction.2.2.2.2 "no dates here" (by decide) (by decide)⟩

/-! Claim C9. -/

/-- Claim C9: for every document with zero headings, extraction returns (no
exception possible in the embedding) a record in which the five section keys
are absent, the presence flags are "no", and `last_review`, `wcag`,
`compliance_level` and `issue_text` are present with value None. -/
theorem c9_empty_document (doc : List Node) (h : ∀ n ∈ doc, isHeading n = false) :
    dictFind (extract_sections doc) "feedback" = none ∧
    dictFind (extract_sections doc) "enforcement" = none ∧
    dictFind (extract_sections doc) "compliance_status" = none ∧
    dictFind (extract_sections doc) "preparation" = none ∧
    dictFind (extract_sections doc) "non_accessible" = none ∧
    dictFind (extract_sections doc) "feedback_present" = some (some "no") ∧
    dictFind (extract_sections doc) "enforcement_present" = some (some "no") ∧
    dictFind (extract_sections doc) "last_review" = some none ∧
    dictFind (extract_sections doc) "wcag" = some none ∧
    dictFind (extract_sections doc) "compliance_level" = some none ∧
    dictFind (extract_sections doc) "issue_text" = some none := by
  rw [extract_sections_of_no_headings h]
  decide

/-- Witness for claim C9 at a one-node document with no headings. -/
theorem c9_witness :
    dictFind (extract_sections [⟨"p", "hello"⟩]) "feedback" = none ∧
    dictFind (extract_sections [⟨"p", "hello"⟩]) "feedback_present" = some (some "no") := by
  have h := c9_empty_document [⟨"p", "hello"⟩] (by decide)
  exact ⟨h.1, h.2.2.2.2.2.1⟩

/-! Claim C10. -/

/-- Claim C10: every record returned by `extract_sections` contains the six
derived keys, with `feedback_present` and `enforcement_present` each exactly
"yes" or "no"; the five section keys are present only when some heading of
the document classified to them. -/
theorem c10_record_shape (doc : List Node) :
    (dictFind (extract_sections doc) "feedback_present" = some (some "yes") ∨
     dictFind (extract_sections doc) "feedback_present" = some (some "no")) ∧
    (dictFind (extract_sections doc) "enforcement_present" = some (some "yes") ∨
     dictFind (extract_sections doc) "enforcement_present" = some (some "no")) ∧
    (∃ v, dictFind (extract_sections doc) "last_review" = some v) ∧
    (∃ v, dictFind (extract_sections doc) "wcag" = some v) ∧
    (∃ v, dictFind (extract_sections doc) "compliance_level" = some v) ∧
    (∃ v, dictFind (extract_sections doc) "issue_text" = some v) ∧
    (∀ k ∈ sectionKeys, (dictFind (extract_sections doc) k).isSome = true →
        ∃ n ∈ doc, isHeading n = true ∧ classifyHeading (strLower n.text) = some k) := by
  refine ⟨?_, ?_, ?_, ?_, ?_, ?_, ?_⟩
  · rw [dictFind_feedback_present]
    cases pyTruthy (pyGet (extractLoop doc []) "feedback") <;> simp
  · rw [dictFind_enforcement_present]
    cases pyTruthy (pyGet (extractLoop doc []) "enforcement") <;> simp
  · simp only [extract_sections]
    rw [dictFind_dictSet_ne _ _ _ _ (by decide), dictFind_dictSet_ne _ _ _ _ (by decide),
      dictFind_dictSet_ne _ _ _ _ (by decide), dictFind_dictSet_self]
    exact ⟨_, rfl⟩
  · simp only [extract_sections]
    rw [dictFind_dictSet_ne _ _ _ _ (by decide), dictFind_dictSet_ne _ _ _ _ (by decide),
      dictFind_dictSet_self]
    exact ⟨_, rfl⟩
  · simp only [extract_sections]
    rw [dictFind_dictSet_ne _ _ _ _ (by decide), dictFind_dictSet_self]
    exact ⟨_, rfl⟩
  · simp only [extract_sections]
    rw [dictFind_dictSet_self]
    exact ⟨_, rfl⟩
  · intro k hk hsome
    rw [dictFind_extract_sections_section doc k hk, dictFind_extractLoop] at hsome
    cases hl : lastMatchRest doc k with
    | none =>
      rw [hl] at hsome
      simp [dictFind] at hsome
    | some rest => exact lastMatchRest_mem hl

/-- Witness for claim C10: in a document whose only heading is "feedback",
the presence of the `feedback` section implies a classifying heading. -/
theorem c10_witness :
    ∃ n ∈ [(⟨"h2", "feedback"⟩ : Node), ⟨"p", "hi"⟩],
      isHeading n = true ∧ classifyHeading (strLower n.text) = some "feedback" :=
  (c10_record_shape [⟨"h2", "feedback"⟩, ⟨"p", "hi"⟩]).2.2.2.2.2.2
    "feedback" (by decide) (by decide)

end Scraper
